import Mathlib

/-!
Verification of the YTLinkExporter pipeline core.

Python strings are modelled as `List Char` (`Str`).  Character-level
case mapping (`str.upper` / `str.lower`) is modelled with the ASCII
maps `Char.toUpper` / `Char.toLower`; all characters relevant to the
reserved-name comparison and keyword matching in the claims are ASCII.
Python truthiness of an optional string ("absent, None or empty means
the filter is off") is modelled by `truthyStr`.
-/

namespace YTLE

abbrev Str := List Char

/-- Python `str.strip()` whitespace class (ASCII portion). -/
def pyIsSpace (c : Char) : Bool :=
  c = ' ' || c = '\t' || c = '\n' || c = '\r' || c = '\x0b' || c = '\x0c'

/-- Drop trailing characters satisfying `p` (Python `rstrip`). -/
def dropTrailing (p : Char → Bool) (s : Str) : Str :=
  (s.reverse.dropWhile p).reverse

/-- Python `s.strip(chars)` / `s.strip()`: drop leading and trailing
characters satisfying `p`. -/
def pyStrip (p : Char → Bool) (s : Str) : Str :=
  dropTrailing p (s.dropWhile p)

/-! ### src/core/sanitizer.py -/

/-- The characters of `_ILLEGAL_CHARS_RE`: `< > : " / \ | ? *`. -/
def isIllegalChar (c : Char) : Bool :=
  c = '<' || c = '>' || c = ':' || c = '"' || c = '/' ||
  c = '\\' || c = '|' || c = '?' || c = '*'

/-- `_RESERVED_NAMES`: Windows reserved device names. -/
def reservedNames : List Str :=
  ["CON".data, "PRN".data, "AUX".data, "NUL".data,
   "COM1".data, "COM2".data, "COM3".data, "COM4".data, "COM5".data,
   "COM6".data, "COM7".data, "COM8".data, "COM9".data,
   "LPT1".data, "LPT2".data, "LPT3".data, "LPT4".data, "LPT5".data,
   "LPT6".data, "LPT7".data, "LPT8".data, "LPT9".data]

/-- `_MAX_STEM_LENGTH`. -/
def MAX_STEM_LENGTH : Nat := 200

/-- Steps 1–4 of `sanitize_filename`: illegal-char replacement,
whitespace strip, trailing-dot strip, reserved-name underscore
prefixing.  Exposed separately so that the truncation step (step 5)
can be reasoned about. -/
def sanitizeStem (name : Str) : Str :=
  let c1 := name.map (fun c => if isIllegalChar c then '_' else c)
  let c2 := pyStrip pyIsSpace c1
  let c3 := dropTrailing (fun c => c = '.') c2
  if reservedNames.contains (c3.map Char.toUpper) then '_' :: c3 else c3

/-- `sanitize_filename` (src/core/sanitizer.py lines 26–68). -/
def sanitize_filename (name : Str) : Str :=
  let c4 := sanitizeStem name
  let c5 := if MAX_STEM_LENGTH < c4.length
            then dropTrailing pyIsSpace (c4.take MAX_STEM_LENGTH)
            else c4
  if c5 = [] || pyStrip (fun c => c = '_') c5 = []
  then "untitled".data
  else c5

theorem mem_dropTrailing {p : Char → Bool} {s : Str} {c : Char}
    (h : c ∈ dropTrailing p s) : c ∈ s := by
  unfold dropTrailing at h
  rw [List.mem_reverse] at h
  exact List.mem_reverse.mp ((List.dropWhile_sublist p).mem h)

theorem mem_pyStrip {p : Char → Bool} {s : Str} {c : Char}
    (h : c ∈ pyStrip p s) : c ∈ s :=
  (List.dropWhile_sublist p).mem (mem_dropTrailing h)

theorem length_dropTrailing_le (p : Char → Bool) (s : Str) :
    (dropTrailing p s).length ≤ s.length := by
  unfold dropTrailing
  rw [List.length_reverse]
  calc (s.reverse.dropWhile p).length ≤ s.reverse.length :=
        (List.dropWhile_sublist p).length_le
    _ = s.length := List.length_reverse s

theorem head?_dropWhile_false {p : Char → Bool} {l : Str} {a : Char}
    (h : (l.dropWhile p).head? = some a) : p a = false := by
  induction l with
  | nil => simp [List.dropWhile] at h
  | cons x xs ih =>
    rw [List.dropWhile_cons] at h
    split at h
    · exact ih h
    · simp_all

theorem getLast?_dropTrailing {p : Char → Bool} {s : Str} {c : Char}
    (h : (dropTrailing p s).getLast? = some c) : p c = false := by
  unfold dropTrailing at h
  rw [List.getLast?_reverse] at h
  exact head?_dropWhile_false h

theorem stem_no_illegal (name : Str) :
    ∀ c ∈ sanitizeStem name, isIllegalChar c = false := by
  intro c hc
  simp only [sanitizeStem] at hc
  have base : ∀ d : Char,
      d ∈ name.map (fun x => if isIllegalChar x then '_' else x) →
      isIllegalChar d = false := by
    intro d hd
    rw [List.mem_map] at hd
    obtain ⟨a, _, ha⟩ := hd
    by_cases h : isIllegalChar a = true
    · simp [h] at ha; subst ha; decide
    · simp [Bool.eq_false_iff.mpr h] at ha; subst ha
      exact Bool.eq_false_iff.mpr h
  split at hc
  · rcases List.mem_cons.mp hc with h | h
    · subst h; decide
    · exact base _ (mem_pyStrip (mem_dropTrailing h))
  · exact base _ (mem_pyStrip (mem_dropTrailing hc))

theorem underscore_cons_not_reserved (xs : Str) :
    ('_' :: xs) ∉ reservedNames := by
  intro h
  simp [reservedNames] at h

theorem getLast?_cons_cases {a c : Char} {l : Str}
    (h : (a :: l).getLast? = some c) : c = a ∨ l.getLast? = some c := by
  cases l with
  | nil => simp at h; exact Or.inl h.symm
  | cons b t => rw [List.getLast?_cons_cons] at h; exact Or.inr h

theorem stem_getLast?_not_dot (name : Str) {c : Char}
    (h : (sanitizeStem name).getLast? = some c) : c ≠ '.' := by
  simp only [sanitizeStem] at h
  intro hc; subst hc
  split at h
  · rcases getLast?_cons_cases h with h | h
    · exact absurd h (by decide)
    · simpa using getLast?_dropTrailing h
  · simpa using getLast?_dropTrailing h

theorem stem_upper_not_reserved (name : Str) :
    (sanitizeStem name).map Char.toUpper ∉ reservedNames := by
  simp only [sanitizeStem]
  split
  · rw [List.map_cons]
    have : Char.toUpper '_' = '_' := by decide
    rw [this]
    exact underscore_cons_not_reserved _
  · next hres =>
    intro hmem
    exact hres (by simpa using hmem)

theorem sanitize_ne_nil (name : Str) : sanitize_filename name ≠ [] := by
  simp only [sanitize_filename, MAX_STEM_LENGTH]
  by_cases htr : 200 < (sanitizeStem name).length
  · rw [if_pos htr]
    split
    · decide
    · next h =>
      simp only [Bool.or_eq_true, decide_eq_true_eq, not_or] at h
      exact h.1
  · rw [if_neg htr]
    split
    · decide
    · next h =>
      simp only [Bool.or_eq_true, decide_eq_true_eq, not_or] at h
      exact h.1

theorem sanitize_length_le (name : Str) : (sanitize_filename name).length ≤ 200 := by
  simp only [sanitize_filename, MAX_STEM_LENGTH]
  by_cases htr : 200 < (sanitizeStem name).length
  · rw [if_pos htr]
    split
    · decide
    · exact le_trans (length_dropTrailing_le _ _) (List.length_take_le _ _)
  · rw [if_neg htr]
    split
    · decide
    · omega

theorem sanitize_no_illegal (name : Str) :
    ∀ c ∈ sanitize_filename name, isIllegalChar c = false := by
  intro c hc
  have huntitled : ∀ d ∈ "untitled".data, isIllegalChar d = false := by decide
  simp only [sanitize_filename, MAX_STEM_LENGTH] at hc
  by_cases htr : 200 < (sanitizeStem name).length
  · rw [if_pos htr] at hc
    split at hc
    · exact huntitled c hc
    · exact stem_no_illegal name c ((List.take_sublist _ _).mem (mem_dropTrailing hc))
  · rw [if_neg htr] at hc
    split at hc
    · exact huntitled c hc
    · exact stem_no_illegal name c hc

theorem sanitize_no_trunc (name : Str) (h : (sanitizeStem name).length ≤ 200) :
    (sanitize_filename name).getLast? ≠ some '.' ∧
    (sanitize_filename name).map Char.toUpper ∉ reservedNames := by
  simp only [sanitize_filename, MAX_STEM_LENGTH]
  rw [if_neg (show ¬ 200 < (sanitizeStem name).length by omega)]
  split
  · exact ⟨by decide, by decide⟩
  · exact ⟨fun hlast => stem_getLast?_not_dot name hlast rfl,
           stem_upper_not_reserved name⟩

/-- C1 (amended): for every input, `sanitize_filename` returns a non-empty
string of at most 200 characters containing none of `< > : " / \ | ? *`;
moreover, whenever the stem produced by steps 1–4 has at most 200
characters (so the truncation step is a no-op), the result also does not
end in `.` and is not case-insensitively equal to a reserved device name.
(The original universal no-trailing-dot / non-reserved guarantees fail when
truncation fires; see the counterexample.) -/
theorem sanitize_filename_props (name : Str) :
    sanitize_filename name ≠ [] ∧
    (sanitize_filename name).length ≤ 200 ∧
    (∀ c ∈ sanitize_filename name, isIllegalChar c = false) ∧
    ((sanitizeStem name).length ≤ 200 →
      (sanitize_filename name).getLast? ≠ some '.' ∧
      (sanitize_filename name).map Char.toUpper ∉ reservedNames) :=
  ⟨sanitize_ne_nil name, sanitize_length_le name, sanitize_no_illegal name,
   fun h => sanitize_no_trunc name h⟩

theorem sanitize_filename_props_witness :
    (sanitizeStem "a".data).length ≤ 200 ∧
    ((sanitize_filename "a".data).getLast? ≠ some '.' ∧
     (sanitize_filename "a".data).map Char.toUpper ∉ reservedNames) :=
  ⟨by decide, (sanitize_filename_props "a".data).2.2.2 (by decide)⟩

set_option maxRecDepth 4000 in
/-- C1 counterexample: on the 201-character input `"a"*199 ++ ".b"` the
truncation step cuts the name to 200 characters, exposing a trailing dot,
so the claimed "never ends in `.`" guarantee fails as stated. -/
theorem sanitize_trailing_dot_cex :
    (sanitize_filename (List.replicate 199 'a' ++ ['.', 'b'])).getLast? =
      some '.' := by decide

example : sanitize_filename "My Great Video".data = "My Great Video".data := by decide
example : sanitize_filename "".data = "untitled".data := by decide
example : sanitize_filename ":::".data = "untitled".data := by decide
example : sanitize_filename "CON".data = "_CON".data := by decide
example : sanitize_filename "nul".data = "_nul".data := by decide
example : sanitize_filename "hello...".data = "hello".data := by decide
example : sanitize_filename "  hello  ".data = "hello".data := by decide

/-! ### src/core/extractor.py — data model -/

/-- `VideoMeta` (src/core/extractor.py lines 28–46). -/
structure VideoMeta where
  title : Str
  url : Str
  video_id : Str
  thumbnail_url : Str := []
  upload_date : Str := []
  uploader : Str := []
deriving DecidableEq

/-- `PlaylistInfo` (src/core/extractor.py lines 49–62). -/
structure PlaylistInfo where
  title : Str := []
  thumbnail_url : Str := []
  video_count : Nat := 0
  videos : List VideoMeta := []
deriving DecidableEq

/-! ### src/core/filters.py

`_parse_date` delegates to `datetime.strptime` with the formats
`%Y%m%d` and `%Y-%m-%d`.  `strptime` matches `%Y` as exactly four
digits, `%m` by the regex `1[0-2]|0[1-9]|[1-9]` and `%d` by
`3[01]|[12]\d|0[1-9]|[1-9]`, with ordinary leftmost-alternative
backtracking, and then validates the matched numbers via the
`datetime` constructor (raising on day-of-month overflow).  `monthMatches`
and `dayMatches` list the alternative matches in preference order and
`findSome?` replays the backtracking.  A parsed date is encoded as the
natural number `10000*y + 100*m + d`, which orders exactly like the
`datetime` values compared by the filter. -/

def digitVal (c : Char) : Nat := c.toNat - 48

/-- Matches of the `strptime` month pattern `1[0-2]|0[1-9]|[1-9]`,
in alternative order, each with the unconsumed rest. -/
def monthMatches (s : Str) : List (Nat × Str) :=
  (match s with
   | '1' :: c :: r =>
     if c = '0' || c = '1' || c = '2' then [(10 + digitVal c, r)] else []
   | _ => []) ++
  (match s with
   | '0' :: c :: r =>
     if '1' ≤ c && c ≤ '9' then [(digitVal c, r)] else []
   | _ => []) ++
  (match s with
   | c :: r => if '1' ≤ c && c ≤ '9' then [(digitVal c, r)] else []
   | _ => [])

/-- Matches of the `strptime` day pattern `3[01]|[12]\d|0[1-9]|[1-9]`,
in alternative order. -/
def dayMatches (s : Str) : List (Nat × Str) :=
  (match s with
   | '3' :: c :: r =>
     if c = '0' || c = '1' then [(30 + digitVal c, r)] else []
   | _ => []) ++
  (match s with
   | a :: c :: r =>
     if (a = '1' || a = '2') && c.isDigit
     then [(10 * digitVal a + digitVal c, r)] else []
   | _ => []) ++
  (match s with
   | '0' :: c :: r =>
     if '1' ≤ c && c ≤ '9' then [(digitVal c, r)] else []
   | _ => []) ++
  (match s with
   | c :: r => if '1' ≤ c && c ≤ '9' then [(digitVal c, r)] else []
   | _ => [])

/-- The regex-match phase of `strptime(s, "%Y%m%d")`. -/
def strptimeYmd (s : Str) : Option (Nat × Nat × Nat) :=
  match s with
  | y1 :: y2 :: y3 :: y4 :: r =>
    if y1.isDigit && y2.isDigit && y3.isDigit && y4.isDigit then
      let y := 1000 * digitVal y1 + 100 * digitVal y2 +
               10 * digitVal y3 + digitVal y4
      (monthMatches r).findSome? fun mr =>
        (dayMatches mr.2).findSome? fun dr =>
          if dr.2 = [] then some (y, mr.1, dr.1) else none
    else none
  | _ => none

/-- The regex-match phase of `strptime(s, "%Y-%m-%d")`. -/
def strptimeYdashed (s : Str) : Option (Nat × Nat × Nat) :=
  match s with
  | y1 :: y2 :: y3 :: y4 :: '-' :: r =>
    if y1.isDigit && y2.isDigit && y3.isDigit && y4.isDigit then
      let y := 1000 * digitVal y1 + 100 * digitVal y2 +
               10 * digitVal y3 + digitVal y4
      (monthMatches r).findSome? fun mr =>
        match mr.2 with
        | '-' :: r2 =>
          (dayMatches r2).findSome? fun dr =>
            if dr.2 = [] then some (y, mr.1, dr.1) else none
        | _ => none
    else none
  | _ => none

def isLeapYear (y : Nat) : Bool :=
  y % 4 = 0 && (y % 100 ≠ 0 || y % 400 = 0)

def daysInMonth (y m : Nat) : Nat :=
  if m = 2 then (if isLeapYear y then 29 else 28)
  else if m = 4 || m = 6 || m = 9 || m = 11 then 30 else 31

/-- The validation performed by the `datetime` constructor. -/
def datetimeValid (y m d : Nat) : Bool :=
  1 ≤ y && 1 ≤ m && m ≤ 12 && 1 ≤ d && d ≤ daysInMonth y m

def dateKey (y m d : Nat) : Nat := 10000 * y + 100 * m + d

def tryFormat (fmt : Str → Option (Nat × Nat × Nat)) (s : Str) : Option Nat :=
  (fmt s).bind fun ymd =>
    if datetimeValid ymd.1 ymd.2.1 ymd.2.2
    then some (dateKey ymd.1 ymd.2.1 ymd.2.2) else none

/-- `_parse_date` (src/core/filters.py lines 72–86). -/
def parse_date (s : Str) : Option Nat :=
  (tryFormat strptimeYmd s) <|> (tryFormat strptimeYdashed s)

/-- Python truthiness of an optional string argument. -/
def truthyStr : Option Str → Bool
  | none => false
  | some s => !s.isEmpty

/-- `_filter_by_date` (src/core/filters.py lines 89–123). -/
def filter_by_date (videos : List VideoMeta)
    (date_start date_end : Option Str) : List VideoMeta :=
  let start := match date_start with
    | some s => if s.isEmpty then none else parse_date s
    | none => none
  let stop := match date_end with
    | some s => if s.isEmpty then none else parse_date s
    | none => none
  videos.filter fun v =>
    match parse_date v.upload_date with
    | none => false
    | some d =>
      !(match start with | some s => decide (d < s) | none => false) &&
      !(match stop with | some e => decide (e < d) | none => false)

/-- The keyword-include list comprehension (src/core/filters.py line 55). -/
def filterInclude (kw : Str) (vs : List VideoMeta) : List VideoMeta :=
  let kwLower := kw.map Char.toLower
  vs.filter fun v => decide (kwLower <:+: v.title.map Char.toLower)

/-- The keyword-exclude list comprehension (src/core/filters.py line 59). -/
def filterExclude (kw : Str) (vs : List VideoMeta) : List VideoMeta :=
  let kwLower := kw.map Char.toLower
  vs.filter fun v => !decide (kwLower <:+: v.title.map Char.toLower)

/-- Date-range stage of `apply_filters` (lines 49–50). -/
def dateStage (ds de : Option Str) (r : List VideoMeta) : List VideoMeta :=
  if truthyStr ds || truthyStr de then filter_by_date r ds de else r

/-- Keyword-include stage of `apply_filters` (lines 53–55). -/
def includeStage (ki : Option Str) (r : List VideoMeta) : List VideoMeta :=
  match ki with
  | some k => if k.isEmpty then r else filterInclude k r
  | none => r

/-- Keyword-exclude stage of `apply_filters` (lines 57–59). -/
def excludeStage (ke : Option Str) (r : List VideoMeta) : List VideoMeta :=
  match ke with
  | some k => if k.isEmpty then r else filterExclude k r
  | none => r

/-- Quantity-limit stage of `apply_filters` (lines 62–63). -/
def limitStage (lim : Option Int) (r : List VideoMeta) : List VideoMeta :=
  match lim with
  | some l => if 0 < l then r.take l.toNat else r
  | none => r

/-- `apply_filters` (src/core/filters.py lines 17–65): date range →
keyword include → keyword exclude → limit. -/
def apply_filters (videos : List VideoMeta) (date_start date_end : Option Str)
    (limit : Option Int)
    (keyword_include keyword_exclude : Option Str) : List VideoMeta :=
  limitStage limit
    (excludeStage keyword_exclude
      (includeStage keyword_include
        (dateStage date_start date_end videos)))

theorem mem_of_mem_limitStage {lim : Option Int} {r : List VideoMeta}
    {v : VideoMeta} (h : v ∈ limitStage lim r) : v ∈ r := by
  cases lim with
  | none => exact h
  | some l =>
    simp only [limitStage] at h
    split at h
    · exact List.mem_of_mem_take h
    · exact h

theorem mem_of_mem_includeStage {ki : Option Str} {r : List VideoMeta}
    {v : VideoMeta} (h : v ∈ includeStage ki r) : v ∈ r := by
  cases ki with
  | none => exact h
  | some k =>
    simp only [includeStage] at h
    split at h
    · exact h
    · simp only [filterInclude] at h
      exact List.mem_of_mem_filter h

theorem mem_of_mem_excludeStage {ke : Option Str} {r : List VideoMeta}
    {v : VideoMeta} (h : v ∈ excludeStage ke r) : v ∈ r := by
  cases ke with
  | none => exact h
  | some k =>
    simp only [excludeStage] at h
    split at h
    · exact h
    · simp only [filterExclude] at h
      exact List.mem_of_mem_filter h

theorem parse_of_mem_filter_by_date {l : List VideoMeta}
    {ds de : Option Str} {v : VideoMeta} (h : v ∈ filter_by_date l ds de) :
    parse_date v.upload_date ≠ none := by
  simp only [filter_by_date] at h
  have hp := (List.mem_filter.mp h).2
  intro hnone
  rw [hnone] at hp
  simp at hp

/-- C2: a record whose `upload_date` is empty or unparseable is excluded
from `apply_filters` whenever `date_start` or `date_end` is supplied and
non-empty — regardless of the bound values (which may themselves fail to
parse) and of the other filter parameters. -/
theorem undated_video_excluded (videos : List VideoMeta)
    (date_start date_end : Option Str) (limit : Option Int)
    (ki ke : Option Str) (v : VideoMeta)
    (hv : parse_date v.upload_date = none)
    (hb : truthyStr date_start = true ∨ truthyStr date_end = true) :
    v ∉ apply_filters videos date_start date_end limit ki ke := by
  intro hmem
  simp only [apply_filters] at hmem
  have h1 : v ∈ dateStage date_start date_end videos :=
    mem_of_mem_includeStage
      (mem_of_mem_excludeStage (mem_of_mem_limitStage hmem))
  rw [dateStage, if_pos (by rcases hb with h | h <;> simp [h])] at h1
  exact parse_of_mem_filter_by_date h1 hv

theorem undated_video_excluded_witness :
    parse_date (VideoMeta.mk "T".data "u".data "i".data [] [] []).upload_date
      = none ∧
    (truthyStr (some "20990101".data) = true ∨
     truthyStr (none : Option Str) = true) ∧
    (VideoMeta.mk "T".data "u".data "i".data [] [] []) ∉
      apply_filters [VideoMeta.mk "T".data "u".data "i".data [] [] []]
        (some "20990101".data) none none none none :=
  ⟨by decide, Or.inl (by decide),
   undated_video_excluded _ _ _ _ _ _ _ (by decide) (Or.inl (by decide))⟩

theorem filter_take_one {α : Type} (p : α → Bool) (l : List α) :
    (l.filter p).take 1 = (l.find? p).toList := by
  induction l with
  | nil => rfl
  | cons a t ih =>
    by_cases h : p a
    · simp [List.filter_cons, List.find?_cons, h]
    · simp only [List.filter_cons, List.find?_cons]
      rw [Bool.eq_false_iff.mpr h]
      simpa using ih

theorem take_one_eq_head?_toList {α : Type} (l : List α) :
    l.take 1 = l.head?.toList := by
  cases l <;> simp

/-- C4: the limit stage runs last: for a positive limit `apply_filters`
returns exactly the first `limit` records of what survives the other
filters, and a `None`, zero or negative limit is a no-op; in particular
a limit of 1 combined with an include keyword yields the first matching
record in upstream order. -/
theorem limit_stage_runs_last (videos : List VideoMeta)
    (ds de : Option Str) (ki ke : Option Str) :
    (∀ l : Int, apply_filters videos ds de (some l) ki ke =
        if 0 < l then (apply_filters videos ds de none ki ke).take l.toNat
        else apply_filters videos ds de none ki ke) ∧
    (∀ k : Str, apply_filters videos none none (some 1) (some k) none =
        (videos.find? fun v =>
          decide ((k.map Char.toLower) <:+: v.title.map Char.toLower)).toList) := by
  constructor
  · intro l
    rfl
  · intro k
    simp only [apply_filters, dateStage, truthyStr, limitStage, excludeStage,
      includeStage]
    norm_num
    by_cases hk : k = []
    · rw [if_pos hk]
      rw [take_one_eq_head?_toList]
      subst hk
      have hpred : (fun v : VideoMeta =>
          decide ((List.map Char.toLower [] : Str) <:+: v.title.map Char.toLower)) =
          fun _ => true := by
        funext v
        simp [List.nil_infix]
      rw [hpred]
      cases videos <;> simp [List.find?]
    · rw [if_neg hk]
      simp only [filterInclude]
      exact filter_take_one _ _

/-- C5: with both keywords active, `apply_filters` keeps exactly the
records whose title contains the include keyword case-insensitively and
does not contain the exclude keyword case-insensitively, in original
order, and the two keyword filter stages commute. -/
theorem keyword_filters_commute (videos : List VideoMeta) (ki ke : Str)
    (hki : ki ≠ []) (hke : ke ≠ []) :
    apply_filters videos none none none (some ki) (some ke) =
      videos.filter (fun v =>
        decide ((ki.map Char.toLower) <:+: v.title.map Char.toLower) &&
        !decide ((ke.map Char.toLower) <:+: v.title.map Char.toLower)) ∧
    filterExclude ke (filterInclude ki videos) =
      filterInclude ki (filterExclude ke videos) := by
  have hki2 : ¬ ki.isEmpty = true := by
    cases ki
    · exact absurd rfl hki
    · simp
  have hke2 : ¬ ke.isEmpty = true := by
    cases ke
    · exact absurd rfl hke
    · simp
  constructor
  · simp only [apply_filters, limitStage, includeStage, excludeStage]
    rw [show dateStage none none videos = videos from by
      simp [dateStage, truthyStr]]
    rw [if_neg hki2, if_neg hke2]
    simp only [filterInclude, filterExclude]
    rw [List.filter_filter]
    exact List.filter_congr (fun a _ => by rw [Bool.and_comm])
  · simp only [filterInclude, filterExclude]
    rw [List.filter_filter, List.filter_filter]
    exact List.filter_congr (fun a _ => by rw [Bool.and_comm])

theorem keyword_filters_commute_witness :
    apply_filters [VideoMeta.mk "Python".data "u".data "i".data [] [] []]
        none none none (some "py".data) (some "js".data) =
      [VideoMeta.mk "Python".data "u".data "i".data [] [] []].filter (fun v =>
        decide (("py".data.map Char.toLower) <:+: v.title.map Char.toLower) &&
        !decide (("js".data.map Char.toLower) <:+: v.title.map Char.toLower)) ∧
    filterExclude "js".data (filterInclude "py".data
        [VideoMeta.mk "Python".data "u".data "i".data [] [] []]) =
      filterInclude "py".data (filterExclude "js".data
        [VideoMeta.mk "Python".data "u".data "i".data [] [] []]) :=
  keyword_filters_commute _ "py".data "js".data (by decide) (by decide)

example :
    apply_filters
      [VideoMeta.mk "A".data "u1".data "i1".data [] "20240615".data [],
       VideoMeta.mk "B".data "u2".data "i2".data [] "20240720".data []]
      (some "20250101".data) none none none none = [] := by decide

example :
    apply_filters
      [VideoMeta.mk "Python Tutorial".data "u1".data "i1".data [] [] [],
       VideoMeta.mk "JavaScript Review".data "u2".data "i2".data [] [] [],
       VideoMeta.mk "Python Deep Dive".data "u3".data "i3".data [] [] []]
      none none none (some "Python".data) none =
      [VideoMeta.mk "Python Tutorial".data "u1".data "i1".data [] [] [],
       VideoMeta.mk "Python Deep Dive".data "u3".data "i3".data [] [] []] := by
  decide

example : parse_date "20240615".data = some 20240615 := by decide
example : parse_date "2024-06-15".data = some 20240615 := by decide
example : parse_date "".data = none := by decide
example : parse_date "hello".data = none := by decide
example : parse_date "20240230".data = none := by decide
example : parse_date "2024615".data = some 20240615 := by decide

/-! ### src/core/extractor.py — normalization

A raw yt-dlp entry is a dict with string-or-None values; an absent key,
a present `None` and (where the code applies `or ""` / `get(k, "")`)
an empty string all flow to `""`, so a field is modelled as
`Option Str` with `none` for absent-or-None.  A thumbnails list entry
is a dict with a `url` key.  `if not entry` (empty dict) is modelled as
equality with the all-absent entry. -/

structure RawThumb where
  url : Option Str := none
deriving DecidableEq

structure RawEntry where
  id : Option Str := none
  title : Option Str := none
  url : Option Str := none
  webpage_url : Option Str := none
  original_url : Option Str := none
  thumbnail : Option Str := none
  thumbnails : Option (List RawThumb) := none
  upload_date : Option Str := none
  uploader : Option Str := none
  channel : Option Str := none
deriving DecidableEq

/-- Python `a or b` on strings. -/
def orStr (a b : Str) : Str := if a.isEmpty then b else a

/-- `_entry_to_meta` (src/core/extractor.py lines 97–146). -/
def entry_to_meta (entry : RawEntry) (flat : Bool) : Option VideoMeta :=
  if entry = ({} : RawEntry) then none
  else
    let video_id := entry.id.getD []
    let title := entry.title.getD []
    if title.isEmpty || title = "[Deleted video]".data
       || title = "[Private video]".data then none
    else
      let url0 := if flat then entry.url.getD []
                  else orStr (entry.webpage_url.getD []) (entry.original_url.getD [])
      let url := if url0.isEmpty && !video_id.isEmpty
                 then "https://www.youtube.com/watch?v=".data ++ video_id
                 else url0
      let thumbnail0 := entry.thumbnail.getD []
      let thumbnail :=
        if thumbnail0.isEmpty then
          match (entry.thumbnails.getD []).getLast? with
          | some t => t.url.getD []
          | none => thumbnail0
        else thumbnail0
      let upload_date := entry.upload_date.getD []
      let uploader := orStr (entry.uploader.getD []) (entry.channel.getD [])
      some { title := title, url := url, video_id := video_id,
             thumbnail_url := thumbnail, upload_date := upload_date,
             uploader := uploader }

/-- The provider response of `ydl.extract_info`: either a dict whose
`_type` is not "playlist" (a single video entry) or a playlist dict
with `title`, `thumbnail` and `entries` keys. -/
inductive RawResult where
  | video (entry : RawEntry)
  | playlist (title : Option Str) (thumbnail : Option Str)
             (entries : Option (List (Option RawEntry)))
deriving DecidableEq

/-- Body of the `for idx, entry in enumerate(entries_list)` loop
(src/core/extractor.py lines 206–214).  The progress callback is
modelled as a state transformer on an arbitrary sink state `σ`; a
`None` entry is skipped entirely (the `continue` also skips the
callback invocation). -/
def playlistStep {σ : Type} (flat : Bool)
    (progress_callback : Option (σ → Nat → Nat → σ)) (total : Nat)
    (acc : List VideoMeta × σ) (p : Nat × Option RawEntry) :
    List VideoMeta × σ :=
  match p.2 with
  | none => acc
  | some entry =>
    let vids := match entry_to_meta entry flat with
                | some meta => acc.1 ++ [meta]
                | none => acc.1
    let s := match progress_callback with
             | some cb => if total ≠ 0 then cb acc.2 (p.1 + 1) total else acc.2
             | none => acc.2
    (vids, s)

/-- `extract_playlist` (src/core/extractor.py lines 153–217), as a
function of the provider response.  Returns the `PlaylistInfo` and the
final progress-sink state. -/
def extract_playlist {σ : Type} (result : Option RawResult) (flat : Bool)
    (progress_callback : Option (σ → Nat → Nat → σ)) (s0 : σ) :
    PlaylistInfo × σ :=
  match result with
  | none => ({}, s0)
  | some (.video entry) =>
    match entry_to_meta entry flat with
    | some meta =>
      ({ title := meta.title, videos := [meta], video_count := 1 }, s0)
    | none => ({}, s0)
  | some (.playlist ptitle pthumb pentries) =>
    let title := ptitle.getD "Untitled Playlist".data
    let thumbnail_url := pthumb.getD []
    let entries_list := pentries.getD []
    let total := entries_list.length
    let r := entries_list.enum.foldl
      (playlistStep flat progress_callback total) ([], s0)
    ({ title := title, thumbnail_url := thumbnail_url,
       videos := r.1, video_count := r.1.length }, r.2)

theorem playlistStep_foldl_fst {σ : Type} (flat : Bool)
    (cb : Option (σ → Nat → Nat → σ)) (total : Nat) :
    ∀ (l : List (Option RawEntry)) (n : Nat) (vs : List VideoMeta) (s : σ),
    ((l.enumFrom n).foldl (playlistStep flat cb total) (vs, s)).1 =
      vs ++ l.filterMap (fun oe => oe.bind fun e => entry_to_meta e flat) := by
  intro l
  induction l with
  | nil => intro n vs s; simp [List.enumFrom]
  | cons oe t ih =>
    intro n vs s
    rw [List.enumFrom, List.foldl_cons]
    cases oe with
    | none =>
      rw [show playlistStep flat cb total (vs, s) (n, none) = (vs, s) from rfl]
      rw [ih]
      simp [List.filterMap_cons]
    | some e =>
      cases hm : entry_to_meta e flat with
      | none =>
        simp only [playlistStep, hm]
        rw [ih]
        simp [List.filterMap_cons, hm]
      | some m =>
        simp only [playlistStep, hm]
        rw [ih]
        simp [List.filterMap_cons, hm]

theorem playlistStep_foldl_enum_fst {σ : Type} (flat : Bool)
    (cb : Option (σ → Nat → Nat → σ)) (total : Nat)
    (l : List (Option RawEntry)) (s : σ) :
    (l.enum.foldl (playlistStep flat cb total) ([], s)).1 =
      l.filterMap (fun oe => oe.bind fun e => entry_to_meta e flat) := by
  have he : l.enum = l.enumFrom 0 := rfl
  rw [he]
  simpa using playlistStep_foldl_fst flat cb total l 0 [] s

theorem extract_playlist_videos {σ : Type} (a b : Option Str)
    (c : Option (List (Option RawEntry))) (flat : Bool)
    (cb : Option (σ → Nat → Nat → σ)) (s0 : σ) :
    (extract_playlist (some (.playlist a b c)) flat cb s0).1.videos =
      (c.getD []).filterMap (fun oe => oe.bind fun e => entry_to_meta e flat) := by
  simp only [extract_playlist]
  exact playlistStep_foldl_enum_fst flat cb _ _ s0

/-- C8: for every provider result — no result, single video, or playlist
with any mix of null, deleted/private and valid entries — the
`video_count` of the returned `PlaylistInfo` equals the length of its
`videos` list, and a missing provider result yields the empty
`PlaylistInfo`. -/
theorem video_count_eq_videos_length {σ : Type} (result : Option RawResult)
    (flat : Bool) (cb : Option (σ → Nat → Nat → σ)) (s0 : σ) :
    (extract_playlist result flat cb s0).1.video_count =
      (extract_playlist result flat cb s0).1.videos.length ∧
    (extract_playlist (none : Option RawResult) flat cb s0).1 =
      ({} : PlaylistInfo) := by
  refine ⟨?_, rfl⟩
  cases result with
  | none => rfl
  | some r =>
    cases r with
    | video e =>
      simp only [extract_playlist]
      cases entry_to_meta e flat <;> rfl
    | playlist a b c => rfl

/-- C9: the extraction result is independent of the progress sink: with
the callback modelled as a state transformer on an arbitrary sink state,
the `PlaylistInfo` produced with any callback and initial state equals
the one produced with no callback at all. -/
theorem progress_callback_no_effect {σ : Type} (result : Option RawResult)
    (flat : Bool) (cb : σ → Nat → Nat → σ) (s0 s1 : σ) :
    (extract_playlist result flat (some cb) s0).1 =
      (extract_playlist result flat none s1).1 := by
  cases result with
  | none => rfl
  | some r =>
    cases r with
    | video e =>
      simp only [extract_playlist]
      cases entry_to_meta e flat <;> rfl
    | playlist a b c =>
      simp only [extract_playlist]
      have h1 := playlistStep_foldl_enum_fst flat (some cb)
        (c.getD []).length (c.getD []) s0
      have h2 := playlistStep_foldl_enum_fst flat (none : Option (σ → Nat → Nat → σ))
        (c.getD []).length (c.getD []) s1
      simp only [PlaylistInfo.mk.injEq]
      simp [h1, h2]

theorem entry_to_meta_fields {e : RawEntry} {flat : Bool} {v : VideoMeta}
    (h : entry_to_meta e flat = some v) :
    v.title ≠ [] ∧ v.title ≠ "[Deleted video]".data ∧
    v.title ≠ "[Private video]".data ∧
    v.upload_date = e.upload_date.getD [] := by
  simp only [entry_to_meta] at h
  split at h
  · exact absurd h (by simp)
  · split at h
    · exact absurd h (by simp)
    · next hguard =>
      injection h with h
      subst h
      simp only [Bool.or_eq_true, decide_eq_true_eq, not_or,
        List.isEmpty_iff] at hguard
      exact ⟨hguard.1.1, hguard.1.2, hguard.2, rfl⟩

/-- Model-side well-formedness of a provider entry's `upload_date`:
absent, empty, or exactly eight digits. -/
def entryDateOK (e : RawEntry) : Bool :=
  match e.upload_date with
  | none => true
  | some d => d.isEmpty || (d.length = 8 && d.all Char.isDigit)

/-- All entries of a provider result have a well-formed `upload_date`. -/
def resultDatesOK : Option RawResult → Bool
  | none => true
  | some (.video e) => entryDateOK e
  | some (.playlist _ _ pe) =>
      (pe.getD []).all fun oe =>
        match oe with
        | some e => entryDateOK e
        | none => true

theorem upload_date_ok_of_entryDateOK {e : RawEntry} {flat : Bool}
    {v : VideoMeta} (h : entry_to_meta e flat = some v)
    (hok : entryDateOK e = true) (hne : v.upload_date ≠ []) :
    v.upload_date.length = 8 ∧ v.upload_date.all Char.isDigit = true := by
  have hd := (entry_to_meta_fields h).2.2.2
  cases hu : e.upload_date with
  | none =>
    rw [hu] at hd
    simp only [Option.getD] at hd
    exact absurd hd hne
  | some d =>
    rw [hu] at hd
    simp only [Option.getD] at hd
    unfold entryDateOK at hok
    rw [hu] at hok
    simp only [Bool.or_eq_true, Bool.and_eq_true, decide_eq_true_eq,
      List.isEmpty_iff] at hok
    rcases hok with hnil | ⟨h8, hdig⟩
    · rw [hd, hnil] at hne; exact absurd rfl hne
    · rw [hd]; exact ⟨h8, hdig⟩

/-- C3 (amended): every `VideoMeta` in an extraction result has a
non-empty title that is neither the deleted- nor the private-video
sentinel; and provided every raw entry's `upload_date` is absent, empty
or exactly eight digits, each record's `upload_date`, when non-empty,
is exactly eight digits.  (Without that proviso the eight-digit part
fails: the normalizer copies `upload_date` through unvalidated; see the
counterexample.) -/
theorem extracted_video_invariants {σ : Type} (result : Option RawResult)
    (flat : Bool) (cb : Option (σ → Nat → Nat → σ)) (s0 : σ)
    (v : VideoMeta) (hv : v ∈ (extract_playlist result flat cb s0).1.videos) :
    (v.title ≠ [] ∧ v.title ≠ "[Deleted video]".data ∧
     v.title ≠ "[Private video]".data) ∧
    (resultDatesOK result = true → v.upload_date ≠ [] →
      v.upload_date.length = 8 ∧ v.upload_date.all Char.isDigit = true) := by
  have hsrc : ∃ e : RawEntry, entry_to_meta e flat = some v ∧
      (resultDatesOK result = true → entryDateOK e = true) := by
    cases result with
    | none => simp [extract_playlist] at hv
    | some r =>
      cases r with
      | video e =>
        simp only [extract_playlist] at hv
        cases hm : entry_to_meta e flat with
        | none => rw [hm] at hv; simp at hv
        | some m =>
          rw [hm] at hv
          simp at hv
          exact ⟨e, by rw [hm, hv], fun hok => hok⟩
      | playlist a b c =>
        rw [extract_playlist_videos] at hv
        rw [List.mem_filterMap] at hv
        obtain ⟨oe, hoe, hbind⟩ := hv
        cases oe with
        | none => simp at hbind
        | some e =>
          simp only [Option.bind] at hbind
          refine ⟨e, hbind, fun hok => ?_⟩
          simp only [resultDatesOK, List.all_eq_true] at hok
          exact hok (some e) hoe
  obtain ⟨e, hm, hok⟩ := hsrc
  have hf := entry_to_meta_fields hm
  exact ⟨⟨hf.1, hf.2.1, hf.2.2.1⟩,
         fun hdok hne => upload_date_ok_of_entryDateOK hm (hok hdok) hne⟩

def badDateEntry : RawEntry :=
  { id := some "x".data, title := some "T".data,
    upload_date := some "hello".data }

/-- C3 counterexample: a playlist whose only entry carries
`upload_date = "hello"` yields a record whose non-empty `upload_date` is
not eight digits — the normalizer copies the field through without
validation, so the unconditional claim fails. -/
theorem extract_bad_upload_date_cex :
    ((extract_playlist (σ := Unit)
        (some (.playlist none none (some [some badDateEntry])))
        true none ()).1.videos.map VideoMeta.upload_date) =
      ["hello".data] ∧
    ¬ ("hello".data.length = 8) := by
  constructor
  · decide
  · decide

def goodDateEntry : RawEntry :=
  { id := some "x".data, title := some "T".data,
    upload_date := some "20240615".data }

def goodDateResult : Option RawResult :=
  some (.playlist none none (some [some goodDateEntry]))

def goodDateVideo : VideoMeta :=
  { title := "T".data, url := "https://www.youtube.com/watch?v=x".data,
    video_id := "x".data, upload_date := "20240615".data }

theorem extracted_video_invariants_witness :
    (goodDateVideo.title ≠ [] ∧
     goodDateVideo.title ≠ "[Deleted video]".data ∧
     goodDateVideo.title ≠ "[Private video]".data) ∧
    (goodDateVideo.upload_date.length = 8 ∧
     goodDateVideo.upload_date.all Char.isDigit = true) :=
  ⟨(extracted_video_invariants goodDateResult true
      (none : Option (Unit → Nat → Nat → Unit)) () goodDateVideo
      (by decide)).1,
   (extracted_video_invariants goodDateResult true
      (none : Option (Unit → Nat → Nat → Unit)) () goodDateVideo
      (by decide)).2 (by decide) (by decide)⟩

/-! ### src/exporters/shortcut.py -/

/-- `_format_date` (src/exporters/shortcut.py lines 69–81). -/
def format_date (raw : Str) : Str :=
  if !raw.isEmpty && raw.length = 8 && raw.all Char.isDigit
  then raw.take 4 ++ '-' :: ((raw.drop 4).take 2 ++ '-' :: (raw.drop 6).take 2)
  else []

/-- The filename computed for one video
(src/exporters/shortcut.py lines 50–52). -/
def shortcutFileName (v : VideoMeta) : Str :=
  orStr (format_date v.upload_date) "Unknown".data ++ " - ".data ++
    sanitize_filename v.title ++ ".url".data

/-- The file content written for one video
(src/exporters/shortcut.py line 55). -/
def shortcutContent (v : VideoMeta) : Str :=
  "[InternetShortcut]\nURL=".data ++ v.url ++ "\n".data

/-- `export_shortcuts` (src/exporters/shortcut.py lines 22–66), modelled
as the list of (filename, content) pairs the loop writes; the filesystem
write, the per-file `OSError` skip counter and the progress callback are
outside the pure model. -/
def export_shortcuts_files (videos : List VideoMeta) : List (Str × Str) :=
  videos.map fun v => (shortcutFileName v, shortcutContent v)

/-- Split a string at newline characters (the line structure used when
reading a shortcut file back). -/
def splitLines : Str → List Str
  | [] => [[]]
  | c :: r =>
    if c = '\n' then [] :: splitLines r
    else
      match splitLines r with
      | l :: ls => (c :: l) :: ls
      | [] => [[c]]

/-- Modelled from the spec: reading a shortcut file back means locating
its `URL=` line and taking the remainder of that line. -/
def parseShortcutUrl (content : Str) : Option Str :=
  ((splitLines content).find? fun l => "URL=".data.isPrefixOf l).map
    fun l => l.drop 4

theorem splitLines_append_newline (a : Str) :
    ∀ b : Str, ('\n' : Char) ∉ a →
      splitLines (a ++ '\n' :: b) = a :: splitLines b := by
  induction a with
  | nil => intro b _; simp [splitLines]
  | cons c t ih =>
    intro b h
    have hc : ¬ c = '\n' := fun e => h (e ▸ List.mem_cons_self c t)
    simp only [List.cons_append, splitLines, if_neg hc]
    rw [List.append_eq, ih b (fun hm => h (List.mem_cons_of_mem c hm))]

theorem isPrefixOf_append_self (l t : Str) : l.isPrefixOf (l ++ t) = true := by
  induction l with
  | nil => simp [List.isPrefixOf]
  | cons a as ih => simp [List.isPrefixOf, ih]

theorem parse_shortcutContent {u : Str} (h : ('\n' : Char) ∉ u) :
    parseShortcutUrl ("[InternetShortcut]\nURL=".data ++ u ++ "\n".data) =
      some u := by
  have e1 : "[InternetShortcut]\nURL=".data ++ u ++ "\n".data =
      "[InternetShortcut]".data ++
        '\n' :: (("URL=".data ++ u) ++ '\n' :: ([] : Str)) := by
    simp [List.append_assoc]
  have hnu : ('\n' : Char) ∉ "URL=".data ++ u := by
    intro hm
    rcases List.mem_append.mp hm with hm | hm
    · exact absurd hm (by decide)
    · exact h hm
  have hsplit : splitLines ("[InternetShortcut]\nURL=".data ++ u ++ "\n".data) =
      ["[InternetShortcut]".data, "URL=".data ++ u, []] := by
    rw [e1, splitLines_append_newline _ _ (by decide),
        splitLines_append_newline _ _ hnu]
    rfl
  simp only [parseShortcutUrl, hsplit]
  have h1 : ("URL=".data.isPrefixOf "[InternetShortcut]".data) = false := by
    decide
  have h2 : ("URL=".data.isPrefixOf ("URL=".data ++ u)) = true :=
    isPrefixOf_append_self _ _
  rw [List.find?_cons_of_neg _ (by simp [h1]), List.find?_cons_of_pos _ h2]
  simp only [Option.map_some]
  exact congrArg some (List.drop_left "URL=".data u)

/-- C7 (amended): for every video of the batch, `export_shortcuts`
writes a file whose content is exactly
`"[InternetShortcut]\nURL=" ++ url ++ "\n"`, and whenever the video's
url contains no newline, parsing the `URL=` line of that content
recovers the exact original url.  (A url containing a newline breaks
the round trip; see the counterexample.) -/
theorem shortcut_roundtrip (videos : List VideoMeta) (v : VideoMeta)
    (hv : v ∈ videos) :
    (shortcutFileName v, shortcutContent v) ∈ export_shortcuts_files videos ∧
    shortcutContent v =
      "[InternetShortcut]\nURL=".data ++ v.url ++ "\n".data ∧
    (('\n' : Char) ∉ v.url →
      parseShortcutUrl (shortcutContent v) = some v.url) :=
  ⟨List.mem_map_of_mem _ hv, rfl, fun h => parse_shortcutContent h⟩

theorem shortcut_roundtrip_witness :
    (shortcutFileName (VideoMeta.mk "t".data "https://e".data "i".data
        [] [] []),
     shortcutContent (VideoMeta.mk "t".data "https://e".data "i".data
        [] [] [])) ∈
      export_shortcuts_files
        [VideoMeta.mk "t".data "https://e".data "i".data [] [] []] ∧
    shortcutContent (VideoMeta.mk "t".data "https://e".data "i".data
        [] [] []) =
      "[InternetShortcut]\nURL=".data ++ "https://e".data ++ "\n".data ∧
    parseShortcutUrl (shortcutContent
      (VideoMeta.mk "t".data "https://e".data "i".data [] [] [])) =
      some "https://e".data := by
  have h := shortcut_roundtrip
    [VideoMeta.mk "t".data "https://e".data "i".data [] [] []]
    (VideoMeta.mk "t".data "https://e".data "i".data [] [] [])
    (by decide)
  exact ⟨h.1, h.2.1, h.2.2 (by decide)⟩

/-- C7 counterexample: for a url containing a newline the written file
gains an extra line, and parsing the `URL=` line recovers only the part
before the newline, not the original url. -/
theorem shortcut_roundtrip_newline_cex :
    parseShortcutUrl (shortcutContent
      (VideoMeta.mk "t".data "a\nb".data "i".data [] [] [])) =
      some "a".data ∧
    "a".data ≠ "a\nb".data := by
  constructor
  · decide
  · decide

/-! ### src/exporters/text_list.py -/

/-- `export_text_list` (src/exporters/text_list.py lines 18–46),
modelled as the pair (written file path, written file content); the
path join uses a POSIX separator. -/
def export_text_list (videos : List VideoMeta) (playlist_title : Str)
    (output_dir : Str) : Str × Str :=
  let safe_title := orStr playlist_title "Untitled Playlist".data
  let filepath := output_dir ++ '/' :: (safe_title ++ "_links.txt".data)
  let lines := (videos.filter fun v => !v.url.isEmpty).map VideoMeta.url
  let content := (List.intercalate "\n".data lines) ++ "\n".data
  (filepath, content)

/-- C10: when no video has a non-empty url (including the empty list),
`export_text_list` still succeeds, the written content is exactly one
newline character (not the empty string), and the returned path is the
written file's path. -/
theorem export_text_list_no_urls (videos : List VideoMeta)
    (playlist_title output_dir : Str)
    (h : ∀ v ∈ videos, v.url = []) :
    (export_text_list videos playlist_title output_dir).2 = ['\n'] ∧
    (export_text_list videos playlist_title output_dir).2 ≠ [] ∧
    (export_text_list videos playlist_title output_dir).1 =
      output_dir ++ '/' ::
        (orStr playlist_title "Untitled Playlist".data ++
          "_links.txt".data) := by
  refine ⟨?_, ?_, rfl⟩
  · simp only [export_text_list]
    have hfil : videos.filter (fun v => !v.url.isEmpty) = [] := by
      rw [List.filter_eq_nil_iff]
      intro v hv
      simp [h v hv]
    rw [hfil]
    rfl
  · simp only [export_text_list]
    have hfil : videos.filter (fun v => !v.url.isEmpty) = [] := by
      rw [List.filter_eq_nil_iff]
      intro v hv
      simp [h v hv]
    rw [hfil]
    decide

theorem export_text_list_no_urls_witness :
    (export_text_list [VideoMeta.mk "t".data [] "i".data [] [] []]
        "T".data "d".data).2 = ['\n'] ∧
    (export_text_list [VideoMeta.mk "t".data [] "i".data [] [] []]
        "T".data "d".data).2 ≠ [] ∧
    (export_text_list [VideoMeta.mk "t".data [] "i".data [] [] []]
        "T".data "d".data).1 =
      "d".data ++ '/' ::
        (orStr "T".data "Untitled Playlist".data ++ "_links.txt".data) :=
  export_text_list_no_urls _ _ _ (by decide)

/-! ### src/core/thumbnail.py

`requests.get` and the Pillow open/convert/resize/save pipeline are
effectful, so they are modelled as an oracle; `download_and_encode`'s
own logic — the empty-url early return, the `try/except` that converts
any failure of either step into the placeholder, and the data-URI
wrapping of a success — is embedded directly.  The second component of
the result counts HTTP GET requests performed. -/

structure ThumbOracle where
  download : Str → Except Str (List Nat)
  resize : List Nat → Nat → Except Str (List Nat)

/-- `_PLACEHOLDER_B64` (src/core/thumbnail.py lines 22–26). -/
def PLACEHOLDER_B64 : Str :=
  ("data:image/png;base64," ++
   "iVBORw0KGgoAAAANSUhEUgAAAAEAAAABCAYAAAAfFcSJAAAAC0lEQVQI12Ng" ++
   "AAIABQABNjN9GQAAAABJRU5ErkJggg==").data

def base64Chars : Str :=
  "ABCDEFGHIJKLMNOPQRSTUVWXYZabcdefghijklmnopqrstuvwxyz0123456789+/".data

/-- RFC 4648 base64 of a byte list (`base64.b64encode`). -/
def b64EncodeGroups : List Nat → Str
  | [] => []
  | [b1] =>
    [base64Chars.getD (b1 / 4) 'A',
     base64Chars.getD (b1 % 4 * 16) 'A', '=', '=']
  | [b1, b2] =>
    [base64Chars.getD (b1 / 4) 'A',
     base64Chars.getD (b1 % 4 * 16 + b2 / 16) 'A',
     base64Chars.getD (b2 % 16 * 4) 'A', '=']
  | b1 :: b2 :: b3 :: rest =>
    base64Chars.getD (b1 / 4) 'A' ::
    base64Chars.getD (b1 % 4 * 16 + b2 / 16) 'A' ::
    base64Chars.getD (b2 % 16 * 4 + b3 / 64) 'A' ::
    base64Chars.getD (b3 % 64) 'A' :: b64EncodeGroups rest

/-- `_bytes_to_data_uri` (src/core/thumbnail.py lines 118–128). -/
def bytes_to_data_uri (jpeg_bytes : List Nat) : Str :=
  "data:image/jpeg;base64,".data ++ b64EncodeGroups jpeg_bytes

/-- `download_and_encode` (src/core/thumbnail.py lines 32–65). -/
def download_and_encode (oracle : ThumbOracle) (url : Str)
    (max_width : Nat) : Str × Nat :=
  if url.isEmpty then (PLACEHOLDER_B64, 0)
  else
    match oracle.download url with
    | .error _ => (PLACEHOLDER_B64, 1)
    | .ok raw =>
      match oracle.resize raw max_width with
      | .error _ => (PLACEHOLDER_B64, 1)
      | .ok resized => (bytes_to_data_uri resized, 1)

/-- C6: `download_and_encode` is total (never raises in the model); an
empty url returns the built-in placeholder with no network call, and for
any other url a failure of the download step or of the
decode/resize/re-encode step yields the same placeholder, while a
success yields the data-URI of the re-encoded image. -/
theorem download_and_encode_fallback (oracle : ThumbOracle)
    (url : Str) (w : Nat) :
    download_and_encode oracle [] w = (PLACEHOLDER_B64, 0) ∧
    (url ≠ [] →
      ((∃ msg, oracle.download url = .error msg) →
        download_and_encode oracle url w = (PLACEHOLDER_B64, 1)) ∧
      (∀ raw msg, oracle.download url = .ok raw →
        oracle.resize raw w = .error msg →
        download_and_encode oracle url w = (PLACEHOLDER_B64, 1)) ∧
      (∀ raw out, oracle.download url = .ok raw →
        oracle.resize raw w = .ok out →
        download_and_encode oracle url w = (bytes_to_data_uri out, 1))) := by
  constructor
  · rfl
  · intro hurl
    have hne : ¬ url.isEmpty = true := by
      cases url
      · exact absurd rfl hurl
      · simp
    refine ⟨?_, ?_, ?_⟩
    · rintro ⟨msg, hmsg⟩
      simp only [download_and_encode, if_neg hne, hmsg]
    · intro raw msg hraw hmsg
      simp only [download_and_encode, if_neg hne, hraw, hmsg]
    · intro raw out hraw hout
      simp only [download_and_encode, if_neg hne, hraw, hout]

def failingOracle : ThumbOracle :=
  { download := fun _ => .error "network error".data,
    resize := fun _ _ => .error "decode error".data }

theorem download_and_encode_fallback_witness :
    download_and_encode failingOracle [] 320 = (PLACEHOLDER_B64, 0) ∧
    ("u".data ≠ []) ∧
    download_and_encode failingOracle "u".data 320 = (PLACEHOLDER_B64, 1) :=
  ⟨(download_and_encode_fallback failingOracle "u".data 320).1,
   by decide,
   ((download_and_encode_fallback failingOracle "u".data 320).2
      (by decide)).1 ⟨"network error".data, rfl⟩⟩

end YTLE
